import Mathlib

/-!
# Verification of the `script` method of `src/conman/scripts/ud-preverbal.py`

This file is a shallow embedding of the Python script that analyses a
dependency-parsed clause ("hit") anchored on a finite verb, classifies the
tokens of the pre-verbal span ("prefield") and reduces them to a ranked list
of up to four countable heads, tagging each with a phrase-category label.

Modelling conventions:
* tokens are identified by their clause position (a `Nat` index); after the
  script's initial `an.reset_ids()` these positions are exactly the contiguous
  canonical indices, so Python object identity (`tok is head`) becomes index
  equality;
* the external Tree Navigator is modelled by a `parent : Nat → Option Nat`
  function on the clause, with children / descendants / next-token derived
  from it exactly as the navigation contract describes (children and
  descendants ordered by clause position, descendants as bounded reachability
  through the parent chain);
* Python regular expressions over surface forms are embedded as terms of a
  small star-free regex language `RE` with Brzozowski-derivative matching;
  `re.fullmatch` is `reFull`, `re.match` (match at start of string) is
  `reAtStart`;
* Python exceptions are modelled with `Except String`: the unbounded
  complementizer-inheritance recursion carries explicit fuel, and fuel
  exhaustion (Python's `RecursionError` on a cyclic parent chain) propagates
  as an error of the whole call, as does the `IndexError` of `hit.kws[0]` on
  a hit with no keyword;
* the mutable tag store `hit.tags` is a `String → Option TagVal` map and the
  script's writes are reified as an ordered list of key/value pairs applied
  left to right, so both the final state and the write order are visible.
-/

set_option maxRecDepth 4000

/-! ## Star-free regular expressions with derivative matching

The Python script uses `re.fullmatch`/`re.match` with patterns built from
literal characters, character classes `[...]`, alternation `|`, optional `?`
and grouping only (the single `.*` occurs in `aux.*|cop` and is embedded
directly as a `String.startsWith` test, which is what full-matching `aux.*`
means).  Each pattern of the source is transcribed to an `RE` term below.
-/

inductive RE where
  | eps : RE
  | chr : Char → RE
  | cls : List Char → RE
  | seq : RE → RE → RE
  | alt : RE → RE → RE
  | opt : RE → RE
deriving Repr, DecidableEq

def RE.nullable : RE → Bool
  | .eps => true
  | .chr _ => false
  | .cls _ => false
  | .seq a b => a.nullable && b.nullable
  | .alt a b => a.nullable || b.nullable
  | .opt _ => true

def RE.deriv : RE → Char → RE
  | .eps, _ => .cls []
  | .chr c, x => if x = c then .eps else .cls []
  | .cls cs, x => if cs.contains x then .eps else .cls []
  | .seq a b, x => if a.nullable then .alt (.seq (a.deriv x) b) (b.deriv x) else .seq (a.deriv x) b
  | .alt a b, x => .alt (a.deriv x) (b.deriv x)
  | .opt a, x => a.deriv x

def reAccept : RE → List Char → Bool
  | r, [] => r.nullable
  | r, c :: cs => reAccept (r.deriv c) cs

/-- `re.fullmatch(pattern, s)`: the whole string belongs to the language. -/
def reFull (r : RE) (s : String) : Bool := reAccept r s.data

def reAtStartAux : RE → List Char → Bool
  | r, [] => r.nullable
  | r, c :: cs => r.nullable || reAtStartAux (r.deriv c) cs

/-- `re.match(pattern, s)`: some prefix of the string belongs to the language. -/
def reAtStart (r : RE) (s : String) : Bool := reAtStartAux r s.data

/-- Sequence of literal characters. -/
def reStr : List Char → RE
  | [] => .eps
  | c :: cs => .seq (.chr c) (reStr cs)

/-! ## Lower-casing of surface forms

Models `str(tok).lower()`.  ASCII letters are lowered by `Char.toLower`; the
uppercase accented letters of the French material in the rule tables are
mapped explicitly (Python's `str.lower` is Unicode-aware). -/

def lowerChar (c : Char) : Char :=
  if c = 'À' then 'à' else if c = 'Â' then 'â' else if c = 'Ç' then 'ç'
  else if c = 'È' then 'è' else if c = 'É' then 'é' else if c = 'Ê' then 'ê'
  else if c = 'Î' then 'î' else if c = 'Ô' then 'ô' else if c = 'Ù' then 'ù'
  else if c = 'Û' then 'û' else c.toLower

def lowerStr (s : String) : String := ⟨s.data.map lowerChar⟩

/-- Is `pat` a prefix of `s` (on character lists)? -/
def isPrefixL : List Char → List Char → Bool
  | [], _ => true
  | _ :: _, [] => false
  | a :: as, b :: bs => a = b && isPrefixL as bs

/-- Is `pat` a contiguous substring of `s`?  Models Python `str.find(pat) > -1`. -/
def isInfixL (pat : List Char) : List Char → Bool
  | [] => isPrefixL pat []
  | b :: bs => isPrefixL pat (b :: bs) || isInfixL pat bs

def containsSub (s pat : String) : Bool := isInfixL pat.data s.data

/-- `s.startswith(pre)` / `re.match` against a literal pattern. -/
def strStarts (s pre : String) : Bool := isPrefixL pre.data s.data

/-! ## The regular expressions of the source, transcribed pattern by pattern -/

/-- `ADPS_FR` entry for "à": `r"[aà][uls]?[sx]?|ad"`. -/
def reAdpA : RE :=
  .alt (.seq (.cls ['a', 'à']) (.seq (.opt (.cls ['u', 'l', 's'])) (.opt (.cls ['s', 'x']))))
    (reStr ['a', 'd'])

/-- `ADPS_FR` entry for "de": `r"d[eu']|del?s?|dou"`. -/
def reAdpDe : RE :=
  .alt (.alt (.seq (.chr 'd') (.cls ['e', 'u', '\'']))
      (.seq (.chr 'd') (.seq (.chr 'e') (.seq (.opt (.chr 'l')) (.opt (.chr 's'))))))
    (reStr ['d', 'o', 'u'])

/-- `ADPS_FR` entry for "en": `r"[ea][nm]|el|es|o?u"`. -/
def reAdpEn : RE :=
  .alt (.alt (.alt (.seq (.cls ['e', 'a']) (.cls ['n', 'm'])) (reStr ['e', 'l']))
      (reStr ['e', 's']))
    (.seq (.opt (.chr 'o')) (.chr 'u'))

/-- `ADPS_FR` entry for "par": `r"p[ae]r"`. -/
def reAdpPar : RE := .seq (.chr 'p') (.seq (.cls ['a', 'e']) (.chr 'r'))

/-- `ADPS_FR` entry for "pour": `r"p(o|u|ou)r"`. -/
def reAdpPour : RE :=
  .seq (.chr 'p') (.seq (.alt (.alt (.chr 'o') (.chr 'u')) (reStr ['o', 'u'])) (.chr 'r'))

/-- The global `ADPS_FR` table: canonical adposition lemmas with their patterns. -/
def ADPS_FR : List (String × RE) :=
  [("à", reAdpA), ("de", reAdpDe), ("en", reAdpEn), ("par", reAdpPar), ("pour", reAdpPour)]

/-- qu- words, `re.match r"k|qu?"`. -/
def reKQu : RE := .alt (.chr 'k') (.seq (.chr 'q') (.opt (.chr 'u')))

/-- cui, `re.fullmatch r"cu[iy]"`. -/
def reCui : RE := .seq (.chr 'c') (.seq (.chr 'u') (.cls ['i', 'y']))

/-- dont, `re.match r"d[ou][nm]"`. -/
def reDont : RE := .seq (.chr 'd') (.seq (.cls ['o', 'u']) (.cls ['n', 'm']))

/-- où, `re.fullmatch r"u|o[uù]?"`. -/
def reOu : RE := .alt (.chr 'u') (.seq (.chr 'o') (.opt (.cls ['u', 'ù'])))

/-- comment, `re.match r"comm?[ae]nt"`. -/
def reComment : RE :=
  .seq (.chr 'c') (.seq (.chr 'o') (.seq (.chr 'm') (.seq (.opt (.chr 'm'))
    (.seq (.cls ['a', 'e']) (.seq (.chr 'n') (.chr 't'))))))

/-- combien, `re.match r"combien"`. -/
def reCombien : RE := reStr ['c', 'o', 'm', 'b', 'i', 'e', 'n']

/-- Pronominal forms which are always clitic,
`re.fullmatch r"([mtsl][e']?)|l[aiyou]|l[aeo][sz]|l(o|u|ou|eu)r|lu[iy]"`. -/
def reCliticPron : RE :=
  .alt (.alt (.alt (.alt
    (.seq (.cls ['m', 't', 's', 'l']) (.opt (.cls ['e', '\''])))
    (.seq (.chr 'l') (.cls ['a', 'i', 'y', 'o', 'u'])))
    (.seq (.chr 'l') (.seq (.cls ['a', 'e', 'o']) (.cls ['s', 'z']))))
    (.seq (.chr 'l') (.seq (.alt (.alt (.alt (.chr 'o') (.chr 'u')) (reStr ['o', 'u']))
      (reStr ['e', 'u'])) (.chr 'r'))))
    (.seq (.chr 'l') (.seq (.chr 'u') (.cls ['i', 'y'])))

/-- nous/vous clitic forms, `re.fullmatch r"[nv](o|u|ou)[sz]"`. -/
def reNousVous : RE :=
  .seq (.cls ['n', 'v'])
    (.seq (.alt (.alt (.chr 'o') (.chr 'u')) (reStr ['o', 'u'])) (.cls ['s', 'z']))

/-- Adverbial clitic forms, `re.fullmatch r"n[eo']?|ne[lmns]|[ae][nm]|[iy]"`. -/
def reCliticAdv : RE :=
  .alt (.alt (.alt (.seq (.chr 'n') (.opt (.cls ['e', 'o', '\''])))
      (.seq (.chr 'n') (.seq (.chr 'e') (.cls ['l', 'm', 'n', 's']))))
    (.seq (.cls ['a', 'e']) (.cls ['n', 'm'])))
    (.cls ['i', 'y'])

/-- SI forms, `re.fullmatch r"s[ie'][ls]?"`. -/
def reSi : RE := .seq (.chr 's') (.seq (.cls ['i', 'e', '\'']) (.opt (.cls ['l', 's'])))

/-- Nominative personal pronoun forms,
`re.fullmatch r"[gj][eo']u?[ls]?|gié|tu|[iy]l[sz]?|ell?e?[sz]?|n[ou]u?[sz]|v[ou]u?][sz]"`.
Note the last alternative of the source pattern contains a literal `]` (an
unmatched `]` outside a class is a literal in Python `re`), transcribed
faithfully as `.chr ']'`. -/
def reNomPron : RE :=
  .alt (.alt (.alt (.alt (.alt (.alt
    (.seq (.cls ['g', 'j']) (.seq (.cls ['e', 'o', '\'']) (.seq (.opt (.chr 'u')) (.opt (.cls ['l', 's'])))))
    (reStr ['g', 'i', 'é']))
    (reStr ['t', 'u']))
    (.seq (.cls ['i', 'y']) (.seq (.chr 'l') (.opt (.cls ['s', 'z'])))))
    (.seq (.chr 'e') (.seq (.chr 'l') (.seq (.opt (.chr 'l')) (.seq (.opt (.chr 'e')) (.opt (.cls ['s', 'z'])))))))
    (.seq (.chr 'n') (.seq (.cls ['o', 'u']) (.seq (.opt (.chr 'u')) (.cls ['s', 'z'])))))
    (.seq (.chr 'v') (.seq (.cls ['o', 'u']) (.seq (.opt (.chr 'u')) (.seq (.chr ']') (.cls ['s', 'z'])))))

/-- Demonstrative CE forms, `re.fullmatch r"[cç][eo']u?"`. -/
def reDemCe : RE := .seq (.cls ['c', 'ç']) (.seq (.cls ['e', 'o', '\'']) (.opt (.chr 'u')))

/-- Other demonstrative forms, `re.fullmatch r"[iy]?c[ie](ll?|s|z|st|ste[sz])"`. -/
def reDem : RE :=
  .seq (.opt (.cls ['i', 'y'])) (.seq (.chr 'c') (.seq (.cls ['i', 'e'])
    (.alt (.alt (.alt (.alt (.seq (.chr 'l') (.opt (.chr 'l'))) (.chr 's')) (.chr 'z'))
      (reStr ['s', 't']))
      (.seq (.chr 's') (.seq (.chr 't') (.seq (.chr 'e') (.cls ['s', 'z'])))))))

/-! ## Data model: tokens, clauses, the navigation contract -/

/-- A Conllu token as consumed by the script: surface form (`str(tok)`) and
the `UPOS`, `DEPREL` and `FEATS` tag fields. -/
structure Token where
  form : String
  upos : String
  deprel : String
  feats : String
deriving Repr, DecidableEq

def defaultTok : Token := ⟨"", "", "", ""⟩

/-- The clause ("hit"): its tokens in canonical position order (position =
list index, as established by `an.reset_ids()`), the parent function of the
dependency tree (the Tree Navigator's `get_parent`), and the keyword list
(`hit.kws`, whose first element is the finite-verb anchor). -/
structure Clause where
  toks : List Token
  parent : Nat → Option Nat
  kws : List Nat

def Clause.tokAt (c : Clause) (i : Nat) : Token := c.toks.getD i defaultTok

/-- `k`-fold application of the parent function (`parentIter c 0 i = some i`). -/
def parentIter (c : Clause) : Nat → Nat → Option Nat
  | 0, i => some i
  | k + 1, i =>
    match c.parent i with
    | none => none
    | some p => parentIter c k p

/-- The Navigator contract's acyclicity: from every token the parent chain
reaches the root within `|toks|` steps (with at most `|toks|` distinct
tokens, any longer chain would repeat a token, i.e. contain a cycle). -/
def Acyclic (c : Clause) : Prop :=
  ∀ i < c.toks.length, parentIter c c.toks.length i = none

/-- The Navigator's `get_children`: direct children in clause position order. -/
def childIdxs (c : Clause) (i : Nat) : List Nat :=
  (List.range c.toks.length).filter (fun j => decide (c.parent j = some i))

/-- Is `j` a (strict) descendant of `anc`, i.e. does `j`'s parent chain reach
`anc` in at least one and at most `|toks|` steps? -/
def isDescIdx (c : Clause) (anc j : Nat) : Bool :=
  (List.range c.toks.length).any (fun k => decide (parentIter c (k + 1) j = some anc))

/-- The Navigator's `get_descendents`: all descendants, sorted by position. -/
def descIdxs (c : Clause) (anc : Nat) : List Nat :=
  (List.range c.toks.length).filter (fun j => isDescIdx c anc j)

/-- `get_w1`: leftmost word of the clause.  Searches the descendants of `tok`,
drops punctuation, and returns the first one if it precedes `tok`, else `tok`
itself. -/
def get_w1 (c : Clause) (tokIx : Nat) : Nat :=
  let l := (descIdxs c tokIx).filter (fun j => decide ((c.tokAt j).upos ≠ "PUNCT"))
  match l with
  | [] => tokIx
  | x :: _ => if x < tokIx then x else tokIx

/-- A value of the mutable tag store `hit.tags`: a string or a list of
strings (`hit.tags['prefield']` stores a list). -/
inductive TagVal where
  | str : String → TagVal
  | lst : List String → TagVal
deriving Repr, DecidableEq

abbrev TagStore := String → Option TagVal

/-! ## The analysis context

The subroutines of `script` close over `hit`, the anchor `T`, the clause
`head` and the `prefield` slice; `Ctx` makes that environment explicit. -/

structure Ctx where
  c : Clause
  tIx : Nat
  headIx : Nat
  w1Ix : Nat

def Ctx.tok (ctx : Ctx) (i : Nat) : Token := ctx.c.tokAt i

/-- Membership of a token position in the slice `hit[w1_ix:T_ix]`. -/
def inPrefield (ctx : Ctx) (i : Nat) : Bool :=
  decide (ctx.w1Ix ≤ i ∧ i < ctx.tIx ∧ i < ctx.c.toks.length)

/-- The `prefield` slice `hit[w1_ix:T_ix]`, as the list of its positions. -/
def prefieldIdxs (ctx : Ctx) : List Nat :=
  List.range' ctx.w1Ix (min ctx.tIx ctx.c.toks.length - ctx.w1Ix)

/-- `is_dephead`: is the token's parent the head?  The copular special case
(`tok is head`, `T` is not the head, `T` has relation `cop`) is tested first
and promotes the head to a dephead; otherwise punctuation is never a dephead
and any other token is a dephead iff its parent is the head. -/
def is_dephead (ctx : Ctx) (i : Nat) : Bool :=
  if i = ctx.headIx ∧ ctx.tIx ≠ ctx.headIx ∧ (ctx.tok ctx.tIx).deprel = "cop" then true
  else if (ctx.tok i).upos ≠ "PUNCT" then decide (ctx.c.parent i = some ctx.headIx)
  else false

/-- `is_prefield_conjunction`. -/
def is_prefield_conjunction (ctx : Ctx) (i : Nat) : Bool :=
  if ¬ inPrefield ctx i then false
  else if ¬ is_dephead ctx i then false
  else if childIdxs ctx.c i ≠ [] then false
  else if ¬ (ctx.tok i).upos = "CCONJ" then false
  else true

/-- `is_prefield_interjection`. -/
def is_prefield_interjection (ctx : Ctx) (i : Nat) : Bool :=
  if ¬ inPrefield ctx i then false
  else if ¬ (ctx.tok i).upos = "INTJ" then false
  else true

/-- `is_parenthetical`. -/
def is_parenthetical (ctx : Ctx) (i : Nat) : Bool :=
  if ¬ is_dephead ctx i then false
  else if ¬ (ctx.tok i).deprel = "parataxis" then false
  else if i = ctx.headIx then false
  else true

/-- `is_vocative`. -/
def is_vocative (ctx : Ctx) (i : Nat) : Bool :=
  if ¬ is_dephead ctx i then false
  else if ¬ (ctx.tok i).deprel = "vocative" then false
  else true

/-! ## The recursive structural clitic test `could_be_prefield_clitic`

The Python function recurses on the next linear token.  The recursion moves
strictly rightwards and stops as soon as the next position leaves the
prefield, so it is bounded by `tIx - i`; `couldBeCliticGo` carries that bound
as structural fuel and `could_be_prefield_clitic` instantiates it, which
keeps the definition kernel-computable. `couldBeCliticF` is the same
recursion with arbitrary fuel and explicit fuel-exhaustion (`none`), used to
state termination (claim C10). -/

def couldBeCliticGo (ctx : Ctx) (fuel i : Nat) : Bool :=
  if ¬ inPrefield ctx i then false          -- not in prefield > not a clitic
  else if childIdxs ctx.c i ≠ [] then false -- has children > not a clitic
  else if ¬ (ctx.tok i).upos ∈ (["PRON", "ADV"] : List String) then false
  else if inPrefield ctx (i + 1) then       -- next_tok in prefield
    match fuel with
    | 0 => false                            -- unreachable at fuel = tIx - i
    | f + 1 => couldBeCliticGo ctx f (i + 1)
  else true

def could_be_prefield_clitic (ctx : Ctx) (i : Nat) : Bool :=
  couldBeCliticGo ctx (ctx.tIx - i) i

def couldBeCliticF (ctx : Ctx) : Nat → Nat → Option Bool
  | 0, _ => none
  | fuel + 1, i =>
    if ¬ inPrefield ctx i then some false
    else if childIdxs ctx.c i ≠ [] then some false
    else if ¬ (ctx.tok i).upos ∈ (["PRON", "ADV"] : List String) then some false
    else if inPrefield ctx (i + 1) then
      match couldBeCliticF ctx fuel (i + 1) with
      | none => none
      | some b => some b
    else some true

/-! ## Complementizer detection -/

/-- `could_be_c_head`: in the prefield, a dependent of the head, and a
subordinator, pronoun or adverb. -/
def could_be_c_head (ctx : Ctx) (i : Nat) : Bool :=
  if ¬ inPrefield ctx i then false
  else if ¬ is_dephead ctx i then false
  else if ¬ (ctx.tok i).upos ∈ (["SCONJ", "PRON", "ADV"] : List String) then false
  else true

/-- `_is_c_element_fr`, with explicit fuel for the recursion through
`an.get_parent` (reached via the `is_c_element` dispatcher, which for the
language "french" comes straight back here); `none` models Python's
`RecursionError` when the parent chain does not bottom out. The final
`some false` branch is unreachable (the `could_be_c_head` gate guarantees the
UPOS is SCONJ, PRON or ADV); Python falls off the function returning `None`,
which is falsy everywhere the result is consumed. -/
def is_c_element_fr (ctx : Ctx) : Nat → Nat → Option Bool
  | 0, _ => none
  | fuel + 1, i =>
    if ¬ could_be_c_head ctx i then
      match ctx.c.parent i with
      | some p => is_c_element_fr ctx fuel p
      | none => some false
    else
      let t := ctx.tok i
      let low := lowerStr t.form
      if t.upos = "SCONJ" then some true
      else if t.upos = "PRON" then
        some (reAtStart reKQu low || reFull reCui low || reAtStart reDont low || reFull reOu low)
      else if t.upos = "ADV" then
        some (reAtStart reComment low || reAtStart reCombien low)
      else some false

/-- `is_c_element`: language dispatcher; an unrecognized language is "not
handled" and never a complementizer. -/
def is_c_element (ctx : Ctx) (lang : String) (fuel i : Nat) : Option Bool :=
  if lang = "french" then is_c_element_fr ctx fuel i else some false

/-! ## Lexical clitic confirmation -/

/-- `_is_prefield_clitic_fr`. -/
def is_prefield_clitic_fr (ctx : Ctx) (i : Nat) : Bool :=
  if ¬ could_be_prefield_clitic ctx i then false
  else
    let t := ctx.tok i
    let low := lowerStr t.form
    if t.upos = "PRON" then
      if reFull reCliticPron low then true
      else if ¬ t.deprel.startsWith "nsubj" ∧ reFull reNousVous low then true
      else false
    else if t.upos = "ADV" then
      if reFull reCliticAdv low then true else false
    else false

/-- `is_prefield_clitic`: language dispatcher. -/
def is_prefield_clitic (ctx : Ctx) (lang : String) (i : Nat) : Bool :=
  if lang = "french" then is_prefield_clitic_fr ctx i else false

/-! ## Phrase tagging -/

/-- The inner loop of `_tag_p_form_fr` over the `ADPS_FR` table: first
matching pattern wins, no match yields `"P"`. -/
def adpLookup : List (String × RE) → String → String
  | [], _ => "P"
  | (tag, r) :: rest, s => if reFull r s then tag else adpLookup rest s

/-- `_tag_p_form_fr`: scan the children for the first adposition attached via
the case relation; return its canonical lemma (or `"P"` if unmatched), or
`""` when there is no such child. -/
def tag_p_form_fr (ctx : Ctx) : List Nat → String
  | [] => ""
  | j :: rest =>
    let t := ctx.tok j
    if t.upos ≠ "ADP" ∨ t.deprel ≠ "case" then tag_p_form_fr ctx rest
    else adpLookup ADPS_FR (lowerStr t.form)

/-- The ordered first-match-wins cascade of `_tag_form_fr` before the PP
re-wrap. -/
def baseTagFr (ctx : Ctx) (i : Nat) : String :=
  let t := ctx.tok i
  let low := lowerStr t.form
  if t.upos = "ADV" ∧ reFull reSi low then "ADVP:si"
  else if t.upos = "PRON" ∧ reFull reNomPron low then "NP:PRON:Prs:Nom"
  else if t.upos = "PRON" ∧ reFull reDemCe low then "NP:PRON:Dem:ce"
  else if t.upos = "PRON" ∧ reFull reDem low then "NP:PRON:Dem"
  else if t.upos = "PRON" then "NP:PRON"
  else if t.upos = "NOUN" ∨ t.upos = "PROPN" then "NP"
  else if t.upos = "VERB" ∧ containsSub t.feats "VerbForm=Fin" then "TP"
  else if t.upos = "VERB" then "VP"
  else if t.upos = "ADJ" then "AP"
  else if t.upos = "ADV" then "ADVP"
  else "XX"

/-- The PP re-wrap at the end of `_tag_form_fr`. -/
def wrapP (P : String) (tag : String) : String :=
  if P = "P" then "PP[" ++ tag ++ "]"
  else if P ≠ "" then "PP:" ++ P ++ "[" ++ tag ++ "]"
  else tag

/-- `_tag_form_fr`. -/
def tag_form_fr (ctx : Ctx) (i : Nat) : String :=
  wrapP (tag_p_form_fr ctx (childIdxs ctx.c i)) (baseTagFr ctx i)

/-- `tag_form`: language dispatcher; an unrecognized language tags `""`. -/
def tag_form (ctx : Ctx) (lang : String) (i : Nat) : String :=
  if lang = "french" then tag_form_fr ctx i else ""

/-! ## The Prefield Reducer

The main body of `script` computes one boolean status list per classifier over
the prefield and then folds them.  `Flags` packages the per-token statuses in
the order the zips of the source consume them. -/

structure Flags where
  interj : Bool
  clitic : Bool
  conj : Bool
  cElem : Bool
  dephead : Bool
  paren : Bool
  voc : Bool
deriving Repr, DecidableEq

/-- Pass 1 of the reducer (the `enumerate(zip(...))` loop): on a conjunction
or C element the accumulator is replaced by `[False] * (i + 1)`, a clitic or
interjection appends `False`, anything else appends its dephead status. -/
def pass1Aux : List Bool → Nat → List Flags → List Bool
  | l, _, [] => l
  | l, i, f :: rest =>
    if f.conj || f.cElem then pass1Aux (List.replicate (i + 1) false) (i + 1) rest
    else if f.clitic || f.interj then pass1Aux (l ++ [false]) (i + 1) rest
    else pass1Aux (l ++ [f.dephead]) (i + 1) rest

def pass1 (fs : List Flags) : List Bool := pass1Aux [] 0 fs

/-- Pass 2 (`prefield_countable_head_status`): a countable head is a
pass-1 dephead that is neither parenthetical nor vocative. -/
def countable (fs : List Flags) : List Bool :=
  List.zipWith (fun b f => b && !f.paren && !f.voc) (pass1 fs) fs

/-- The positions whose countable-head status is true, in clause order: the
source tokens of `hit.tags['prefield_countable_heads']` and of the rank
assignment. -/
def qualifying (bs : List Bool) (idxs : List Nat) : List Nat :=
  ((bs.zip idxs).filter (fun p => p.1)).map Prod.snd

/-- The source position assigned to rank `k` (1-based): the `k`-th qualifying
token scanning from nearest-to-verb to farthest, present only for
`1 ≤ k ≤ number of qualifying tokens`. -/
def rankIdx (bs : List Bool) (idxs : List Nat) (k : Nat) : Option Nat :=
  if k = 0 then none else ((qualifying bs idxs).reverse)[k - 1]?

/-! ## The Tag Writer -/

def rankKey (k : Nat) : String := "T-" ++ toString k ++ "_form"

/-- The set-up loop `for i in range(1, 5): hit.tags['T-i_form'] = ''`. -/
def initRankWrites : List (String × TagVal) :=
  (List.range' 1 4).map (fun k => (rankKey k, TagVal.str ""))

/-- The tagging loop over `reversed(list(zip(countable_status, prefield)))`:
skip non-heads, increment the counter, only write the first four. -/
def fillLoop (ctx : Ctx) (lang : String) : List (Bool × Nat) → Nat → List (String × TagVal)
  | [], _ => []
  | (status, j) :: rest, i =>
    if status then
      if i + 1 > 4 then fillLoop ctx lang rest (i + 1)
      else (rankKey (i + 1), TagVal.str (tag_form ctx lang j)) :: fillLoop ctx lang rest (i + 1)
    else fillLoop ctx lang rest i

/-- `' '.join` of the forms of the status-true tokens (the diagnostics). -/
def joinForms (ctx : Ctx) (bs : List Bool) (idxs : List Nat) : String :=
  String.intercalate " " (((bs.zip idxs).filter (fun p => p.1)).map (fun p => (ctx.tok p.2).form))

/-- The per-token statuses of the analysis, as computed by the status list
comprehensions of `script` (`cElem` is read with default `false`; the script
only uses it after checking that no status computation ran out of fuel). -/
def mkFlags (ctx : Ctx) (lang : String) (i : Nat) : Flags :=
  { interj := is_prefield_interjection ctx i
    clitic := is_prefield_clitic ctx lang i
    conj := is_prefield_conjunction ctx i
    cElem := (is_c_element ctx lang ctx.c.toks.length i).getD false
    dephead := is_dephead ctx i
    paren := is_parenthetical ctx i
    voc := is_vocative ctx i }

def scriptFlags (ctx : Ctx) (lang : String) : List Flags :=
  (prefieldIdxs ctx).map (mkFlags ctx lang)

/-- The diagnostic writes at the end of `script`, in source order. -/
def diagWrites (ctx : Ctx) (lang : String) : List (String × TagVal) :=
  let pre := prefieldIdxs ctx
  [ ("prefield_clitics", TagVal.str (joinForms ctx (pre.map (is_prefield_clitic ctx lang)) pre)),
    ("prefield_conjunctions", TagVal.str (joinForms ctx (pre.map (is_prefield_conjunction ctx)) pre)),
    ("prefield_cs", TagVal.str (joinForms ctx
      (pre.map (fun i => (is_c_element ctx lang ctx.c.toks.length i).getD false)) pre)),
    ("prefield_countable_heads", TagVal.str (joinForms ctx (countable (scriptFlags ctx lang)) pre)),
    ("T", TagVal.str (ctx.tok ctx.tIx).form),
    ("head", TagVal.str (ctx.tok ctx.headIx).form),
    ("w1", TagVal.str (ctx.tok ctx.w1Ix).form),
    ("prefield", TagVal.lst (pre.map (fun i => (ctx.tok i).form))) ]

/-- All writes of one (successful) analysis call, in execution order: the four
rank initializations, the rank fills, the diagnostics. -/
def writesOf (ctx : Ctx) (lang : String) : List (String × TagVal) :=
  initRankWrites ++
    fillLoop ctx lang (((countable (scriptFlags ctx lang)).zip (prefieldIdxs ctx)).reverse) 0 ++
    diagWrites ctx lang

/-- Apply a write list to the tag store, left to right. -/
def applyWrites (ws : List (String × TagVal)) (s : TagStore) : TagStore :=
  ws.foldl (fun acc kv => fun k => if k = kv.1 then some kv.2 else acc k) s

/-! ## The Clause Locator and the call itself -/

/-- The locator section of `script`: `T = hit.kws[0]` (an `IndexError` when
the hit has no keyword), `head = get_head()` (`aux.*|cop` on the anchor's
DEPREL selects the parent, which must then exist), `w1 = get_w1(head)`. -/
def scriptCtx (c : Clause) : Except String Ctx :=
  match c.kws with
  | [] => .error "structural error: hit has no keyword token"
  | tIx :: _ =>
    let tTok := c.tokAt tIx
    -- re.fullmatch(r'aux.*|cop', DEPREL): starts with "aux" or equals "cop"
    if strStarts tTok.deprel "aux" || tTok.deprel = "cop" then
      match c.parent tIx with
      | none => .error "structural error: anchor has no parent"
      | some h => .ok ⟨c, tIx, h, get_w1 c h⟩
    else .ok ⟨c, tIx, tIx, get_w1 c tIx⟩

/-- Did every complementizer-status computation terminate within the fuel
bound (which acyclic parent chains never exceed)? -/
def cStatusOk (ctx : Ctx) (lang : String) : Bool :=
  (prefieldIdxs ctx).all (fun i => (is_c_element ctx lang ctx.c.toks.length i).isSome)

/-- The write list of one analysis call, or the structural error it dies with. -/
def scriptWrites (c : Clause) (lang : String) : Except String (List (String × TagVal)) :=
  match scriptCtx c with
  | .error e => .error e
  | .ok ctx =>
    if cStatusOk ctx lang then .ok (writesOf ctx lang)
    else .error "structural error: maximum recursion depth exceeded in complementizer detection"

/-- `script(an, lang)`: updates the clause's tag store, or fails with a
structural error leaving the store untouched. -/
def script (c : Clause) (lang : String) (s : TagStore) : Except String TagStore :=
  match scriptWrites c lang with
  | .error e => .error e
  | .ok ws => .ok (applyWrites ws s)

/-! ## Helper lemmas -/

instance (c : Clause) : Decidable (Acyclic c) := by
  unfold Acyclic; infer_instance

theorem applyWrites_nil (s : TagStore) : applyWrites [] s = s := rfl

theorem applyWrites_cons (kv : String × TagVal) (ws : List (String × TagVal)) (s : TagStore) :
    applyWrites (kv :: ws) s = applyWrites ws (fun k => if k = kv.1 then some kv.2 else s k) := rfl

theorem applyWrites_append (ws1 ws2 : List (String × TagVal)) (s : TagStore) :
    applyWrites (ws1 ++ ws2) s = applyWrites ws2 (applyWrites ws1 s) := by
  simp [applyWrites, List.foldl_append]

theorem applyWrites_not_mem (ws : List (String × TagVal)) (s : TagStore) (k : String)
    (h : k ∉ ws.map Prod.fst) : applyWrites ws s k = s k := by
  induction ws generalizing s with
  | nil => rfl
  | cons kv ws ih =>
    simp only [List.map_cons, List.mem_cons] at h
    push_neg at h
    rw [applyWrites_cons, ih _ h.2, if_neg h.1]

theorem applyWrites_mem_isSome (ws : List (String × TagVal)) (s : TagStore) (k : String)
    (h : k ∈ ws.map Prod.fst) : (applyWrites ws s k).isSome := by
  induction ws generalizing s with
  | nil => simp at h
  | cons kv ws ih =>
    rw [applyWrites_cons]
    by_cases hk : k ∈ ws.map Prod.fst
    · exact ih _ hk
    · simp only [List.map_cons, List.mem_cons] at h
      have hk1 : k = kv.1 := h.resolve_right hk
      rw [applyWrites_not_mem _ _ _ hk, if_pos hk1]
      rfl

theorem pass1Aux_length : ∀ (fs : List Flags) (l : List Bool) (i : Nat), l.length = i →
    (pass1Aux l i fs).length = i + fs.length := by
  intro fs
  induction fs with
  | nil => intro l i h; simp [pass1Aux, h]
  | cons f rest ih =>
    intro l i h
    simp only [pass1Aux]
    split
    · rw [ih _ _ (by simp)]; simp; omega
    · split
      · rw [ih _ _ (by simp [h])]; simp; omega
      · rw [ih _ _ (by simp [h])]; simp; omega

theorem pass1_length (fs : List Flags) : (pass1 fs).length = fs.length := by
  simpa using pass1Aux_length fs [] 0 rfl

theorem pass1Aux_false : ∀ (fs : List Flags) (l : List Bool) (i m : Nat), l.length = i → m < i →
    (∀ j, j ≤ m → l[j]? = some false) → ∀ j, j ≤ m → (pass1Aux l i fs)[j]? = some false := by
  intro fs
  induction fs with
  | nil => intro l i m _ _ hall j hj; exact hall j hj
  | cons f rest ih =>
    intro l i m hl hm hall j hj
    simp only [pass1Aux]
    split
    · exact ih _ _ m (by simp) (by omega)
        (fun j2 hj2 => by
          rw [List.getElem?_replicate, if_pos (by omega)]) j hj
    · split
      · exact ih _ _ m (by simp [hl]) (by omega)
          (fun j2 hj2 => by
            rw [List.getElem?_append_left (by omega), hall j2 hj2]) j hj
      · exact ih _ _ m (by simp [hl]) (by omega)
          (fun j2 hj2 => by
            rw [List.getElem?_append_left (by omega), hall j2 hj2]) j hj

theorem pass1Aux_reset : ∀ (fs : List Flags) (i0 : Nat) (f : Flags), fs[i0]? = some f →
    (f.conj || f.cElem) = true → ∀ (l : List Bool) (i : Nat), l.length = i →
    ∀ j, j ≤ i + i0 → (pass1Aux l i fs)[j]? = some false := by
  intro fs
  induction fs with
  | nil => intro i0 f h; simp at h
  | cons f0 rest ih =>
    intro i0 f hget hcf l i hl j hj
    cases i0 with
    | zero =>
      simp only [List.getElem?_cons_zero, Option.some.injEq] at hget
      subst hget
      simp only [pass1Aux]
      rw [if_pos hcf]
      exact pass1Aux_false rest _ _ i (by simp) (by omega)
        (fun j2 hj2 => by rw [List.getElem?_replicate, if_pos (by omega)]) j (by omega)
    | succ k =>
      have hget2 : rest[k]? = some f := by simpa using hget
      simp only [pass1Aux]
      split
      · exact ih k f hget2 hcf _ _ (by simp) j (by omega)
      · split
        · exact ih k f hget2 hcf _ _ (by simp [hl]) j (by omega)
        · exact ih k f hget2 hcf _ _ (by simp [hl]) j (by omega)

theorem pass1_reset (fs : List Flags) (i0 : Nat) (f : Flags) (hget : fs[i0]? = some f)
    (hcf : (f.conj || f.cElem) = true) : ∀ j, j ≤ i0 → (pass1 fs)[j]? = some false :=
  fun j hj => pass1Aux_reset fs i0 f hget hcf [] 0 rfl j (by omega)

theorem countable_length (fs : List Flags) : (countable fs).length = fs.length := by
  simp [countable, pass1_length]

theorem countable_reset (fs : List Flags) (i0 : Nat) (f : Flags) (hget : fs[i0]? = some f)
    (hcf : (f.conj || f.cElem) = true) : ∀ j, j ≤ i0 → (countable fs)[j]? = some false := by
  intro j hj
  have h1 := pass1_reset fs i0 f hget hcf j hj
  have hi0 : i0 < fs.length := by
    by_contra hlt
    rw [List.getElem?_eq_none (by omega)] at hget
    exact Option.noConfusion hget
  have hjf : j < fs.length := by omega
  unfold countable
  rw [List.getElem?_zipWith', h1, List.getElem?_eq_getElem hjf]
  simp

theorem qualifying_mem_range (bs : List Bool) (w p : Nat) :
    p ∈ qualifying bs (List.range' w bs.length) ↔
      ∃ k, bs[k]? = some true ∧ p = w + k := by
  unfold qualifying
  constructor
  · intro hp
    obtain ⟨pr, hpr, hsnd⟩ := List.mem_map.mp hp
    have hmem := List.mem_filter.mp hpr
    obtain ⟨k, hk⟩ := List.mem_iff_getElem?.mp hmem.1
    have hz := List.getElem?_zip_eq_some.mp hk
    refine ⟨k, ?_, ?_⟩
    · have h1 := hz.1
      have hb : pr.1 = true := by simpa using hmem.2
      rwa [hb] at h1
    · have h2 := hz.2
      have hk2 : k < bs.length := by
        by_contra hlt
        rw [List.getElem?_eq_none (by simp; omega)] at h2
        exact Option.noConfusion h2
      rw [List.getElem?_range' _ _ (by simpa using hk2)] at h2
      simp only [Option.some.injEq] at h2
      omega
  · rintro ⟨k, hk, rfl⟩
    have hk2 : k < bs.length := by
      by_contra hlt
      rw [List.getElem?_eq_none (by omega)] at hk
      exact Option.noConfusion hk
    refine List.mem_map.mpr ⟨(true, w + k), ?_, rfl⟩
    refine List.mem_filter.mpr ⟨?_, by simp⟩
    refine List.mem_iff_getElem?.mpr ⟨k, ?_⟩
    refine List.getElem?_zip_eq_some.mpr ⟨hk, ?_⟩
    rw [List.getElem?_range' _ _ (by simpa using hk2)]
    simp [Nat.one_mul]

theorem qualifying_pairwise (bs : List Bool) (w : Nat) :
    (qualifying bs (List.range' w bs.length)).Pairwise (· < ·) := by
  have hsub : List.Sublist (qualifying bs (List.range' w bs.length))
      (List.range' w bs.length) := by
    have h1 : List.Sublist ((bs.zip (List.range' w bs.length)).filter (fun p => p.1))
        (bs.zip (List.range' w bs.length)) := List.filter_sublist _
    have h2 := h1.map Prod.snd
    rwa [List.map_snd_zip _ _ (by simp)] at h2
  exact List.Pairwise.sublist hsub (List.pairwise_lt_range' w bs.length)

theorem rankIdx_isSome_iff (bs : List Bool) (idxs : List Nat) (k : Nat) (hk : 1 ≤ k) :
    (rankIdx bs idxs k).isSome ↔ k ≤ (qualifying bs idxs).length := by
  unfold rankIdx
  rw [if_neg (by omega)]
  constructor
  · intro h
    obtain ⟨p, hp⟩ := Option.isSome_iff_exists.mp h
    obtain ⟨hlt, -⟩ := List.getElem?_eq_some_iff.mp hp
    rw [List.length_reverse] at hlt
    omega
  · intro h
    rw [List.getElem?_eq_getElem (by rw [List.length_reverse]; omega)]
    rfl

theorem rankIdx_mem (bs : List Bool) (idxs : List Nat) (k p : Nat)
    (h : rankIdx bs idxs k = some p) : p ∈ qualifying bs idxs := by
  unfold rankIdx at h
  by_cases hk : k = 0
  · rw [if_pos hk] at h; exact Option.noConfusion h
  · rw [if_neg hk] at h
    exact List.mem_reverse.mp (List.getElem?_mem h)

theorem rank_filled_count (bs : List Bool) (idxs : List Nat) :
    ((List.range' 1 4).filter (fun k => (rankIdx bs idxs k).isSome)).length =
      min 4 (qualifying bs idxs).length := by
  set n := (qualifying bs idxs).length with hn
  have hc : ∀ k ∈ List.range' 1 4, (rankIdx bs idxs k).isSome = decide (k ≤ n) := by
    intro k hk
    have h1 : 1 ≤ k := by
      rw [List.mem_range'] at hk; omega
    have Hiff := rankIdx_isSome_iff bs idxs k h1
    by_cases h : k ≤ n
    · rw [decide_eq_true h]
      exact Hiff.mpr h
    · rw [decide_eq_false h]
      rw [Bool.eq_false_iff]
      intro hcon
      exact h (Hiff.mp hcon)
  rw [List.filter_congr hc]
  have : List.range' 1 4 = [1, 2, 3, 4] := rfl
  rw [this]
  rcases n with _ | _ | _ | _ | m
  · decide
  · decide
  · decide
  · decide
  · have h4 : ([1, 2, 3, 4].filter fun k => decide (k ≤ m + 4)) = [1, 2, 3, 4] := by
      rw [List.filter_eq_self]
      intro a ha
      fin_cases ha <;> simp
    rw [h4]
    simp [Nat.min_def]

theorem rankIdx_ordering (bs : List Bool) (w k a b : Nat) (hk : 1 ≤ k)
    (ha : rankIdx bs (List.range' w bs.length) k = some a)
    (hb : rankIdx bs (List.range' w bs.length) (k + 1) = some b) : b < a := by
  have hpw := qualifying_pairwise bs w
  have hrev : ((qualifying bs (List.range' w bs.length)).reverse).Pairwise (fun x y => y < x) :=
    List.pairwise_reverse.mpr hpw
  unfold rankIdx at ha hb
  rw [if_neg (by omega)] at ha
  rw [if_neg (by omega)] at hb
  obtain ⟨hlt1, hv1⟩ := List.getElem?_eq_some_iff.mp ha
  obtain ⟨hlt2, hv2⟩ := List.getElem?_eq_some_iff.mp hb
  have h12 : (⟨k - 1, hlt1⟩ : Fin _) < (⟨k + 1 - 1, hlt2⟩ : Fin _) := by
    rw [Fin.mk_lt_mk]; omega
  have hlt := List.pairwise_iff_get.mp hrev ⟨k - 1, hlt1⟩ ⟨k + 1 - 1, hlt2⟩ h12
  simp only [List.get_eq_getElem] at hlt
  rw [hv1, hv2] at hlt
  exact hlt

theorem rankIdx_one_max (bs : List Bool) (w p : Nat)
    (h : rankIdx bs (List.range' w bs.length) 1 = some p) :
    ∀ q ∈ qualifying bs (List.range' w bs.length), q ≤ p := by
  intro q hq
  have hpw := qualifying_pairwise bs w
  have hrev : ((qualifying bs (List.range' w bs.length)).reverse).Pairwise (fun x y => y < x) :=
    List.pairwise_reverse.mpr hpw
  unfold rankIdx at h
  rw [if_neg (by omega)] at h
  rcases hrl : (qualifying bs (List.range' w bs.length)).reverse with _ | ⟨x, t⟩
  · rw [hrl] at h; simp at h
  · rw [hrl] at h
    simp only [Nat.sub_self, List.getElem?_cons_zero, Option.some.injEq] at h
    subst h
    have hq2 : q ∈ x :: t := by rw [← hrl]; exact List.mem_reverse.mpr hq
    rw [hrl] at hrev
    rcases List.mem_cons.mp hq2 with rfl | hmem
    · omega
    · have := (List.pairwise_cons.mp hrev).1 q hmem
      omega

theorem rankKey_ne (m k : Nat) (hm : m ≤ 4) (hk : k ≤ 4) (hne : m ≠ k) :
    rankKey m ≠ rankKey k := by
  interval_cases m <;> interval_cases k <;> first | (exact absurd rfl hne) | decide

theorem fillLoop_untouched (ctx : Ctx) (lang : String) :
    ∀ (ps : List (Bool × Nat)) (i k : Nat) (s : TagStore), 1 ≤ k → k ≤ i →
      applyWrites (fillLoop ctx lang ps i) s (rankKey k) = s (rankKey k) := by
  intro ps
  induction ps with
  | nil => intro i k s h1 h2; rfl
  | cons p rest ih =>
    intro i k s h1 h2
    obtain ⟨st, j⟩ := p
    cases st with
    | false =>
      show applyWrites (fillLoop ctx lang rest i) s (rankKey k) = s (rankKey k)
      exact ih i k s h1 h2
    | true =>
      show applyWrites
          (if i + 1 > 4 then fillLoop ctx lang rest (i + 1)
           else (rankKey (i + 1), TagVal.str (tag_form ctx lang j)) :: fillLoop ctx lang rest (i + 1))
          s (rankKey k) = s (rankKey k)
      by_cases hle : i + 1 > 4
      · rw [if_pos hle]
        exact ih (i + 1) k s h1 (by omega)
      · rw [if_neg hle, applyWrites_cons, ih (i + 1) k _ h1 (by omega)]
        exact if_neg (rankKey_ne k (i + 1) (by omega) (by omega) (by omega))

theorem fillLoop_value (ctx : Ctx) (lang : String) :
    ∀ (ps : List (Bool × Nat)) (i k : Nat) (s : TagStore), i < k → k ≤ 4 →
      applyWrites (fillLoop ctx lang ps i) s (rankKey k) =
        match ((ps.filter (fun p => p.1)).map Prod.snd)[k - i - 1]? with
        | some j => some (TagVal.str (tag_form ctx lang j))
        | none => s (rankKey k) := by
  intro ps
  induction ps with
  | nil => intro i k s h1 h2; simp [fillLoop, applyWrites]
  | cons p rest ih =>
    intro i k s h1 h2
    obtain ⟨st, j⟩ := p
    cases st with
    | false =>
      show applyWrites (fillLoop ctx lang rest i) s (rankKey k) = _
      rw [ih i k s h1 h2]
      have hf : ((false, j) :: rest).filter (fun p => p.1) = rest.filter (fun p => p.1) := by
        simp [List.filter_cons]
      rw [hf]
    | true =>
      have hle : ¬ i + 1 > 4 := by omega
      have hstep : fillLoop ctx lang ((true, j) :: rest) i =
          (rankKey (i + 1), TagVal.str (tag_form ctx lang j)) :: fillLoop ctx lang rest (i + 1) := by
        show (if i + 1 > 4 then fillLoop ctx lang rest (i + 1)
          else (rankKey (i + 1), TagVal.str (tag_form ctx lang j)) ::
            fillLoop ctx lang rest (i + 1)) = _
        rw [if_neg hle]
      rw [hstep, applyWrites_cons]
      have hf : ((true, j) :: rest).filter (fun p => p.1) = (true, j) :: rest.filter (fun p => p.1) := by
        simp [List.filter_cons]
      rw [hf]
      by_cases hk : k = i + 1
      · subst hk
        rw [fillLoop_untouched ctx lang rest (i + 1) (i + 1) _ (by omega) (le_refl _)]
        have hidx : i + 1 - i - 1 = 0 := by omega
        rw [List.map_cons, hidx, List.getElem?_cons_zero]
        simp
      · rw [ih (i + 1) k _ (by omega) h2]
        have hidx : k - i - 1 = (k - (i + 1) - 1) + 1 := by omega
        rw [List.map_cons, hidx, List.getElem?_cons_succ]
        have hupd : (fun k2 => if k2 = (rankKey (i + 1), TagVal.str (tag_form ctx lang j)).1
            then some (rankKey (i + 1), TagVal.str (tag_form ctx lang j)).2 else s k2) (rankKey k) =
            s (rankKey k) := by
          exact if_neg (rankKey_ne k (i + 1) (by omega) (by omega) hk)
        rcases hm : ((rest.filter (fun p => p.1)).map Prod.snd)[k - (i + 1) - 1]? with - | j2
        · simp only []
          exact hupd
        · rfl

theorem initRankWrites_eq : initRankWrites =
    [(rankKey 1, TagVal.str ""), (rankKey 2, TagVal.str ""),
     (rankKey 3, TagVal.str ""), (rankKey 4, TagVal.str "")] := rfl

theorem applyWrites_init (s : TagStore) (k : Nat) (h1 : 1 ≤ k) (h4 : k ≤ 4) :
    applyWrites initRankWrites s (rankKey k) = some (TagVal.str "") := by
  interval_cases k <;> rfl

theorem diagWrites_keys (ctx : Ctx) (lang : String) : (diagWrites ctx lang).map Prod.fst =
    ["prefield_clitics", "prefield_conjunctions", "prefield_cs", "prefield_countable_heads",
     "T", "head", "w1", "prefield"] := rfl

theorem fillLoop_keys (ctx : Ctx) (lang : String) :
    ∀ (ps : List (Bool × Nat)) (i : Nat) (key : String),
      key ∈ (fillLoop ctx lang ps i).map Prod.fst → ∃ m, 1 ≤ m ∧ m ≤ 4 ∧ key = rankKey m := by
  intro ps
  induction ps with
  | nil => intro i key h; simp [fillLoop] at h
  | cons p rest ih =>
    intro i key h
    obtain ⟨st, j⟩ := p
    cases st with
    | false =>
      exact ih i key h
    | true =>
      by_cases hle : i + 1 > 4
      · have hstep : fillLoop ctx lang ((true, j) :: rest) i = fillLoop ctx lang rest (i + 1) := by
          show (if i + 1 > 4 then fillLoop ctx lang rest (i + 1)
            else (rankKey (i + 1), TagVal.str (tag_form ctx lang j)) ::
              fillLoop ctx lang rest (i + 1)) = _
          rw [if_pos hle]
        rw [hstep] at h
        exact ih (i + 1) key h
      · have hstep : fillLoop ctx lang ((true, j) :: rest) i =
            (rankKey (i + 1), TagVal.str (tag_form ctx lang j)) ::
              fillLoop ctx lang rest (i + 1) := by
          show (if i + 1 > 4 then fillLoop ctx lang rest (i + 1)
            else (rankKey (i + 1), TagVal.str (tag_form ctx lang j)) ::
              fillLoop ctx lang rest (i + 1)) = _
          rw [if_neg hle]
        rw [hstep] at h
        simp only [List.map_cons, List.mem_cons] at h
        rcases h with h | h
        · exact ⟨i + 1, by omega, by omega, h⟩
        · exact ih (i + 1) key h

/-- The final value of the tag store at a rank key: the phrase tag of the
rank's source token when the rank is filled, the empty string otherwise. -/
theorem writes_rank_value (ctx : Ctx) (lang : String) (s : TagStore) (k : Nat)
    (h1 : 1 ≤ k) (h4 : k ≤ 4) :
    applyWrites (writesOf ctx lang) s (rankKey k) =
      some (TagVal.str
        (match rankIdx (countable (scriptFlags ctx lang)) (prefieldIdxs ctx) k with
         | some j => tag_form ctx lang j
         | none => "")) := by
  unfold writesOf
  rw [applyWrites_append, applyWrites_append]
  rw [applyWrites_not_mem _ _ _ (by
    rw [diagWrites_keys]
    interval_cases k <;> decide)]
  rw [fillLoop_value ctx lang _ 0 k _ (by omega) h4]
  have hrw : (((countable (scriptFlags ctx lang)).zip (prefieldIdxs ctx)).reverse.filter
      (fun p => p.1)).map Prod.snd =
      (qualifying (countable (scriptFlags ctx lang)) (prefieldIdxs ctx)).reverse := by
    rw [List.filter_reverse, List.map_reverse]
    rfl
  rw [hrw]
  have hrank : rankIdx (countable (scriptFlags ctx lang)) (prefieldIdxs ctx) k =
      ((qualifying (countable (scriptFlags ctx lang)) (prefieldIdxs ctx)).reverse)[k - 1]? := by
    unfold rankIdx
    rw [if_neg (by omega)]
  have hidx : k - 0 - 1 = k - 1 := by omega
  rw [hidx, hrank]
  rcases hm : ((qualifying (countable (scriptFlags ctx lang)) (prefieldIdxs ctx)).reverse)[k - 1]?
      with - | j
  · rw [applyWrites_init s k h1 h4]
  · rfl

theorem couldBeCliticGo_stop (ctx : Ctx) (i : Nat) (hc : inPrefield ctx i = false) :
    ∀ fuel, couldBeCliticGo ctx fuel i = false := by
  intro fuel
  cases fuel with
  | zero =>
    show (if ¬ inPrefield ctx i = true then false else _) = false
    rw [hc]
    simp
  | succ f =>
    show (if ¬ inPrefield ctx i = true then false else _) = false
    rw [hc]
    simp

theorem couldBeCliticGo_congr (ctx : Ctx) :
    ∀ (f1 i f2 : Nat), ctx.tIx ≤ i + f1 → ctx.tIx ≤ i + f2 →
      couldBeCliticGo ctx f1 i = couldBeCliticGo ctx f2 i := by
  intro f1
  induction f1 with
  | zero =>
    intro i f2 h1 h2
    have hc : inPrefield ctx i = false := by
      simp only [inPrefield, decide_eq_false_iff_not]
      omega
    rw [couldBeCliticGo_stop ctx i hc, couldBeCliticGo_stop ctx i hc]
  | succ g ih =>
    intro i f2 h1 h2
    cases f2 with
    | zero =>
      have hc : inPrefield ctx i = false := by
        simp only [inPrefield, decide_eq_false_iff_not]
        omega
      rw [couldBeCliticGo_stop ctx i hc, couldBeCliticGo_stop ctx i hc]
    | succ g2 =>
      show (if ¬ inPrefield ctx i = true then false
        else if childIdxs ctx.c i ≠ [] then false
        else if ¬ (ctx.tok i).upos ∈ (["PRON", "ADV"] : List String) then false
        else if inPrefield ctx (i + 1) = true then couldBeCliticGo ctx g (i + 1)
        else true) =
        (if ¬ inPrefield ctx i = true then false
        else if childIdxs ctx.c i ≠ [] then false
        else if ¬ (ctx.tok i).upos ∈ (["PRON", "ADV"] : List String) then false
        else if inPrefield ctx (i + 1) = true then couldBeCliticGo ctx g2 (i + 1)
        else true)
      split_ifs with h1x h2x h3x h4x
      all_goals try rfl
      have hnext : i + 1 < ctx.tIx := by
        simp only [inPrefield, decide_eq_true_eq] at h4x
        omega
      exact ih (i + 1) g2 (by omega) (by omega)

theorem could_be_prefield_clitic_unfold (ctx : Ctx) (i : Nat) :
    could_be_prefield_clitic ctx i =
      if ¬ inPrefield ctx i then false
      else if childIdxs ctx.c i ≠ [] then false
      else if ¬ (ctx.tok i).upos ∈ (["PRON", "ADV"] : List String) then false
      else if inPrefield ctx (i + 1) then could_be_prefield_clitic ctx (i + 1)
      else true := by
  unfold could_be_prefield_clitic
  rw [couldBeCliticGo_congr ctx (ctx.tIx - i) i (ctx.tIx - i + 1) (by omega) (by omega)]
  show (if ¬ inPrefield ctx i = true then false
    else if childIdxs ctx.c i ≠ [] then false
    else if ¬ (ctx.tok i).upos ∈ (["PRON", "ADV"] : List String) then false
    else if inPrefield ctx (i + 1) = true then couldBeCliticGo ctx (ctx.tIx - i) (i + 1)
    else true) = _
  split_ifs with h1x h2x h3x h4x
  all_goals try rfl
  have hnext : i + 1 < ctx.tIx := by
    simp only [inPrefield, decide_eq_true_eq] at h4x
    omega
  exact couldBeCliticGo_congr ctx (ctx.tIx - i) (i + 1) (ctx.tIx - (i + 1)) (by omega) (by omega)

theorem couldBeCliticF_eq (ctx : Ctx) :
    ∀ (fuel i : Nat), ctx.tIx - i < fuel →
      couldBeCliticF ctx fuel i = some (could_be_prefield_clitic ctx i) := by
  intro fuel
  induction fuel with
  | zero => intro i h; omega
  | succ f ih =>
    intro i h
    rw [couldBeCliticF, could_be_prefield_clitic_unfold]
    split_ifs with h1x h2x h3x h4x
    all_goals try rfl
    have hnext : i + 1 < ctx.tIx := by
      simp only [inPrefield, decide_eq_true_eq] at h4x
      omega
    rw [ih (i + 1) (by omega)]

theorem parentIter_succ_none (c : Clause) (k i p : Nat) (hp : c.parent i = some p)
    (h : parentIter c (k + 1) i = none) : parentIter c k p = none := by
  rw [parentIter, hp] at h
  exact h

theorem is_c_element_fr_isSome (ctx : Ctx) :
    ∀ (k i : Nat), parentIter ctx.c k i = none → (is_c_element_fr ctx k i).isSome := by
  intro k
  induction k with
  | zero => intro i h; rw [parentIter] at h; exact Option.noConfusion h
  | succ k ih =>
    intro i h
    rw [is_c_element_fr]
    by_cases hg : ¬ could_be_c_head ctx i = true
    · rw [if_pos hg]
      rcases hp : ctx.c.parent i with - | p
      · rfl
      · exact ih p (parentIter_succ_none ctx.c k i p hp h)
    · rw [if_neg hg]
      dsimp only
      split_ifs <;> rfl

theorem is_c_element_fr_stable (ctx : Ctx) :
    ∀ (k i : Nat), parentIter ctx.c k i = none →
      ∀ m, is_c_element_fr ctx (k + m) i = is_c_element_fr ctx k i := by
  intro k
  induction k with
  | zero => intro i h; rw [parentIter] at h; exact Option.noConfusion h
  | succ k ih =>
    intro i h m
    have hshape : k + 1 + m = (k + m) + 1 := by omega
    rw [hshape, is_c_element_fr, is_c_element_fr]
    by_cases hg : ¬ could_be_c_head ctx i = true
    · rw [if_pos hg, if_pos hg]
      rcases hp : ctx.c.parent i with - | p
      · rfl
      · exact ih p (parentIter_succ_none ctx.c k i p hp h) m
    · rw [if_neg hg, if_neg hg]

theorem tag_p_form_fr_no_adp (ctx : Ctx) :
    ∀ (js : List Nat),
      (∀ j ∈ js, (ctx.tok j).upos ≠ "ADP" ∨ (ctx.tok j).deprel ≠ "case") →
      tag_p_form_fr ctx js = "" := by
  intro js
  induction js with
  | nil => intro _; rfl
  | cons j rest ih =>
    intro h
    rw [tag_p_form_fr]
    rw [if_pos (h j (List.mem_cons_self j rest))]
    exact ih (fun j2 hj2 => h j2 (List.mem_cons_of_mem j hj2))

theorem tag_p_form_fr_first (ctx : Ctx) :
    ∀ (pre : List Nat) (j : Nat) (rest : List Nat),
      (∀ j2 ∈ pre, (ctx.tok j2).upos ≠ "ADP" ∨ (ctx.tok j2).deprel ≠ "case") →
      (ctx.tok j).upos = "ADP" → (ctx.tok j).deprel = "case" →
      tag_p_form_fr ctx (pre ++ j :: rest) = adpLookup ADPS_FR (lowerStr (ctx.tok j).form) := by
  intro pre
  induction pre with
  | nil =>
    intro j rest _ hu hd
    rw [List.nil_append, tag_p_form_fr]
    rw [if_neg (by push_neg; exact ⟨hu, hd⟩)]
  | cons j0 pre2 ih =>
    intro j rest h hu hd
    rw [List.cons_append, tag_p_form_fr]
    rw [if_pos (h j0 (List.mem_cons_self j0 pre2))]
    exact ih j rest (fun j2 hj2 => h j2 (List.mem_cons_of_mem j0 hj2)) hu hd

theorem adpLookup_no_match (s : String) :
    ∀ (tbl : List (String × RE)), (∀ pr ∈ tbl, reFull pr.2 s = false) →
      adpLookup tbl s = "P" := by
  intro tbl
  induction tbl with
  | nil => intro _; rfl
  | cons pr rest ih =>
    intro h
    obtain ⟨tag, r⟩ := pr
    rw [adpLookup]
    rw [if_neg (by
      have := h (tag, r) (List.mem_cons_self _ rest)
      simp only at this
      simp [this])]
    exact ih (fun q hq => h q (List.mem_cons_of_mem _ hq))

theorem adpLookup_first (s : String) :
    ∀ (pre2 : List (String × RE)) (t : String) (r : RE) (rest2 : List (String × RE)),
      (∀ pr ∈ pre2, reFull pr.2 s = false) → reFull r s = true →
      adpLookup (pre2 ++ (t, r) :: rest2) s = t := by
  intro pre2
  induction pre2 with
  | nil =>
    intro t r rest2 _ hr
    rw [List.nil_append, adpLookup, if_pos hr]
  | cons pr pre3 ih =>
    intro t r rest2 h hr
    obtain ⟨t0, r0⟩ := pr
    rw [List.cons_append, adpLookup]
    rw [if_neg (by
      have := h (t0, r0) (List.mem_cons_self _ pre3)
      simp only at this
      simp [this])]
    exact ih t r rest2 (fun q hq => h q (List.mem_cons_of_mem _ hq)) hr

theorem wrapP_empty (b : String) : wrapP "" b = b := by
  rw [wrapP, if_neg (by decide), if_neg (by simp)]

theorem wrapP_plain (b : String) : wrapP "P" b = "PP[" ++ b ++ "]" := by
  rw [wrapP, if_pos rfl]

theorem wrapP_tagged (t b : String) (h1 : t ≠ "P") (h2 : t ≠ "") :
    wrapP t b = "PP:" ++ t ++ "[" ++ b ++ "]" := by
  rw [wrapP, if_neg h1, if_pos h2]

theorem ADPS_FR_tags_ne (t : String) (r : RE) (h : (t, r) ∈ ADPS_FR) :
    t ≠ "P" ∧ t ≠ "" := by
  fin_cases h <;> exact ⟨by decide, by decide⟩

/-! ## Concrete clauses used as witnesses and counterexamples -/

def store0 : TagStore := fun _ => none

def isOkE (e : Except String TagStore) : Bool :=
  match e with
  | .ok _ => true
  | .error _ => false

/-- The end-to-end scenario of the spec: prefield `Hier , Jean` before the
anchor `parlé`. -/
def hierClause : Clause :=
  { toks := [⟨"Hier", "ADV", "advmod", ""⟩, ⟨",", "PUNCT", "punct", ""⟩,
             ⟨"Jean", "PROPN", "nsubj", ""⟩, ⟨"parlé", "VERB", "root", "VerbForm=Fin"⟩],
    parent := fun i => match i with | 0 => some 3 | 1 => some 3 | 2 => some 3 | _ => none,
    kws := [3] }

/-- The analysis context the locator computes for `hierClause`. -/
def ctxHier : Ctx := ⟨hierClause, 3, 3, 0⟩

/-- A clause whose prefield is the single object clitic "le". -/
def leClause : Clause :=
  { toks := [⟨"le", "PRON", "obj", ""⟩, ⟨"voit", "VERB", "root", "VerbForm=Fin"⟩],
    parent := fun i => match i with | 0 => some 1 | _ => none,
    kws := [1] }

/-- A childless nominative pronoun token "vous". -/
def vousCtx : Ctx :=
  { c := { toks := [⟨"vous", "PRON", "nsubj", ""⟩], parent := fun _ => none, kws := [] },
    tIx := 0, headIx := 0, w1Ix := 0 }

/-- A childless pronoun token "nous" (same shape as `vousCtx`). -/
def nousCtx : Ctx :=
  { c := { toks := [⟨"nous", "PRON", "nsubj", ""⟩], parent := fun _ => none, kws := [] },
    tIx := 0, headIx := 0, w1Ix := 0 }

/-- A noun with a case-marking adposition child "de". -/
def deCtx : Ctx :=
  { c := { toks := [⟨"de", "ADP", "case", ""⟩, ⟨"Paris", "PROPN", "obl", ""⟩],
           parent := fun i => match i with | 0 => some 1 | _ => none, kws := [] },
    tIx := 1, headIx := 1, w1Ix := 0 }

/-- A clause with a parent cycle (tokens 1 and 3) that complementizer
detection reaches from prefield token 1. -/
def cycClause : Clause :=
  { toks := [⟨"chien", "NOUN", "nsubj", ""⟩, ⟨"x", "ADV", "advmod", ""⟩,
             ⟨"va", "VERB", "root", "VerbForm=Fin"⟩, ⟨"y", "ADV", "advmod", ""⟩],
    parent := fun i => match i with | 0 => some 2 | 1 => some 3 | 3 => some 1 | _ => none,
    kws := [2] }

/-- A clause with a parent self-loop on token 1 that the analysis never
traverses (the anchor is clause-initial, so the prefield is empty). -/
def loopClause : Clause :=
  { toks := [⟨"va", "VERB", "root", ""⟩, ⟨"x", "NOUN", "obl", ""⟩],
    parent := fun i => match i with | 1 => some 1 | _ => none,
    kws := [0] }

/-- A hit with no keyword token. -/
def noKwClause : Clause := { toks := [], parent := fun _ => none, kws := [] }

/-- A copular clause whose structural head (the anchor's parent) is a
punctuation token. -/
def punctCopClause : Clause :=
  { toks := [⟨",", "PUNCT", "punct", ""⟩, ⟨"est", "VERB", "cop", ""⟩],
    parent := fun i => match i with | 1 => some 0 | _ => none,
    kws := [1] }

def punctCopCtx : Ctx := ⟨punctCopClause, 1, 0, 0⟩

/-- Flag rows used to exercise the reducer laws directly: an ordinary
dephead followed by a conjunction. -/
def flagsDephead : Flags :=
  { interj := false, clitic := false, conj := false, cElem := false,
    dephead := true, paren := false, voc := false }

def flagsConj : Flags :=
  { interj := false, clitic := false, conj := true, cElem := false,
    dephead := false, paren := false, voc := false }

/-! ## The claims -/

/-- **C1**: for every clause analysis and every prefield token at position
`i0` classified as a conjunction or as a complementizer, neither any token at
a position `j < i0` nor the token at `i0` itself has a true countable-head
status, appears among the countable-head positions (`qualifying`, the source
list of `hit.tags['prefield_countable_heads']`), or is assigned any rank
(`rankIdx`, the source of the `T-1_form` … `T-4_form` entries).  Stated over
an arbitrary per-token flag table `fs` with clause positions `w + j` — the
analysis instantiates `fs := scriptFlags ctx lang` and `w := ctx.w1Ix`. -/
theorem spec_C1 (fs : List Flags) (i0 : Nat) (f : Flags) (w : Nat)
    (hget : fs[i0]? = some f) (hcf : (f.conj || f.cElem) = true) :
    ∀ j, j ≤ i0 →
      (countable fs)[j]? = some false ∧
      (w + j) ∉ qualifying (countable fs) (List.range' w fs.length) ∧
      (∀ k, rankIdx (countable fs) (List.range' w fs.length) k ≠ some (w + j)) := by
  intro j hj
  have hcnt := countable_reset fs i0 f hget hcf j hj
  have hnotmem : (w + j) ∉ qualifying (countable fs) (List.range' w fs.length) := by
    intro hmem
    rw [show List.range' w fs.length = List.range' w (countable fs).length from by
      rw [countable_length]] at hmem
    obtain ⟨k, hk1, hk2⟩ := (qualifying_mem_range (countable fs) w (w + j)).mp hmem
    have hkj : k = j := by omega
    subst hkj
    rw [hcnt] at hk1
    exact Bool.noConfusion (Option.some.inj hk1)
  exact ⟨hcnt, hnotmem, fun k hk => hnotmem (rankIdx_mem _ _ k (w + j) hk)⟩

theorem spec_C1_witness :
    (countable [flagsDephead, flagsConj])[0]? = some false ∧
    7 + 0 ∉ qualifying (countable [flagsDephead, flagsConj]) (List.range' 7 2) ∧
    rankIdx (countable [flagsDephead, flagsConj]) (List.range' 7 2) 1 ≠ some (7 + 0) := by
  obtain ⟨h1, h2, h3⟩ :=
    spec_C1 [flagsDephead, flagsConj] 1 flagsConj 7 (by decide) (by decide) 0 (by decide)
  exact ⟨h1, h2, h3 1⟩

/-- **C2**: with `n` qualifying countable-head tokens, exactly `min 4 n` of
the ranks 1–4 are filled; rank 1 is the qualifying token nearest the anchor;
consecutive filled ranks have strictly decreasing clause positions (rank `k`
nearer the verb than rank `k+1`); and in the final tag store every rank key
`T-k_form` holds the phrase tag of its source token when filled and the
empty string otherwise. -/
theorem spec_C2 :
    (∀ (fs : List Flags) (w : Nat),
      ((List.range' 1 4).filter
          (fun k => (rankIdx (countable fs) (List.range' w fs.length) k).isSome)).length =
        min 4 (qualifying (countable fs) (List.range' w fs.length)).length) ∧
    (∀ (fs : List Flags) (w p : Nat),
      rankIdx (countable fs) (List.range' w fs.length) 1 = some p →
      ∀ q ∈ qualifying (countable fs) (List.range' w fs.length), q ≤ p) ∧
    (∀ (fs : List Flags) (w k a b : Nat), 1 ≤ k →
      rankIdx (countable fs) (List.range' w fs.length) k = some a →
      rankIdx (countable fs) (List.range' w fs.length) (k + 1) = some b → b < a) ∧
    (∀ (ctx : Ctx) (lang : String) (s : TagStore) (k : Nat), 1 ≤ k → k ≤ 4 →
      applyWrites (writesOf ctx lang) s (rankKey k) =
        some (TagVal.str
          (match rankIdx (countable (scriptFlags ctx lang)) (prefieldIdxs ctx) k with
           | some j => tag_form ctx lang j
           | none => ""))) := by
  refine ⟨?_, ?_, ?_, ?_⟩
  · intro fs w
    exact rank_filled_count (countable fs) (List.range' w fs.length)
  · intro fs w p h
    have hlen : List.range' w fs.length = List.range' w (countable fs).length := by
      rw [countable_length]
    rw [hlen] at h ⊢
    exact rankIdx_one_max (countable fs) w p h
  · intro fs w k a b hk ha hb
    have hlen : List.range' w fs.length = List.range' w (countable fs).length := by
      rw [countable_length]
    rw [hlen] at ha hb
    exact rankIdx_ordering (countable fs) w k a b hk ha hb
  · intro ctx lang s k h1 h4
    exact writes_rank_value ctx lang s k h1 h4

theorem spec_C2_witness :
    applyWrites (writesOf ctxHier "french") store0 (rankKey 1) =
      some (TagVal.str
        (match rankIdx (countable (scriptFlags ctxHier "french")) (prefieldIdxs ctxHier) 1 with
         | some j => tag_form ctxHier "french" j
         | none => "")) ∧
    rankIdx (countable (scriptFlags ctxHier "french")) (prefieldIdxs ctxHier) 1 = some 2 ∧
    tag_form ctxHier "french" 2 = "NP" :=
  ⟨spec_C2.2.2.2 ctxHier "french" store0 1 (by decide) (by decide), by decide, by decide⟩

/-- **C3**: `could_be_prefield_clitic` holds exactly when the token is in the
prefield, childless, a pronoun or adverb, and — whenever the next linear
token is also in the prefield — that next token itself satisfies the
predicate; in particular a token passing the first three tests whose
prefield successor fails the predicate is itself not a possible clitic. -/
theorem spec_C3 (ctx : Ctx) (i : Nat) :
    (could_be_prefield_clitic ctx i = true ↔
      (inPrefield ctx i = true ∧ childIdxs ctx.c i = [] ∧
        (ctx.tok i).upos ∈ (["PRON", "ADV"] : List String) ∧
        (inPrefield ctx (i + 1) = true → could_be_prefield_clitic ctx (i + 1) = true))) ∧
    (inPrefield ctx i = true → childIdxs ctx.c i = [] →
      (ctx.tok i).upos ∈ (["PRON", "ADV"] : List String) →
      inPrefield ctx (i + 1) = true → could_be_prefield_clitic ctx (i + 1) = false →
      could_be_prefield_clitic ctx i = false) := by
  have hU := could_be_prefield_clitic_unfold ctx i
  by_cases h1 : inPrefield ctx i = true
  · by_cases h2 : childIdxs ctx.c i = []
    · by_cases h3 : (ctx.tok i).upos ∈ (["PRON", "ADV"] : List String)
      · by_cases h4 : inPrefield ctx (i + 1) = true
        · have hEq : could_be_prefield_clitic ctx i = could_be_prefield_clitic ctx (i + 1) := by
            rw [hU, if_neg (by simpa using h1), if_neg (by simpa using h2),
              if_neg (not_not_intro h3), if_pos h4]
          constructor
          · rw [hEq]
            constructor
            · intro ht; exact ⟨h1, h2, h3, fun _ => ht⟩
            · rintro ⟨-, -, -, hnext⟩; exact hnext h4
          · intro _ _ _ _ hfalse
            rw [hEq]
            exact hfalse
        · have hEq : could_be_prefield_clitic ctx i = true := by
            rw [hU, if_neg (by simpa using h1), if_neg (by simpa using h2),
              if_neg (not_not_intro h3), if_neg h4]
          constructor
          · rw [hEq]
            exact ⟨fun _ => ⟨h1, h2, h3, fun hc => absurd hc h4⟩, fun _ => rfl⟩
          · intro _ _ _ hc _
            exact absurd hc h4
      · have hEq : could_be_prefield_clitic ctx i = false := by
          rw [hU, if_neg (by simpa using h1), if_neg (by simpa using h2),
            if_pos (by simpa using h3)]
        constructor
        · rw [hEq]
          exact ⟨fun hff => Bool.noConfusion hff, fun hc => absurd hc.2.2.1 h3⟩
        · intro _ _ hm _ _
          exact absurd hm h3
    · have hEq : could_be_prefield_clitic ctx i = false := by
        rw [hU, if_neg (by simpa using h1), if_pos h2]
      constructor
      · rw [hEq]
        exact ⟨fun hff => Bool.noConfusion hff, fun hc => absurd hc.2.1 h2⟩
      · intro _ hc _ _ _
        exact absurd hc h2
  · have hEq : could_be_prefield_clitic ctx i = false := by
      rw [hU, if_pos (by simpa using h1)]
    constructor
    · rw [hEq]
      exact ⟨fun hff => Bool.noConfusion hff, fun hc => absurd hc.1 h1⟩
    · intro hc _ _ _ _
      exact absurd hc h1

theorem spec_C3_witness : could_be_prefield_clitic ctxHier 0 = false :=
  (spec_C3 ctxHier 0).2 (by decide) (by decide) (by decide) (by decide) (by decide)

/-- **C4** (amended): with an unrecognized language selector, complementizer
detection and clitic detection return false for every token, every phrase
tag is the empty string, and the five structural classifications are
identical to those of the recognized language "french"; the countable-head
selection is computed by the same reduction algorithm, but consumes the
all-false clitic/complementizer statuses and may therefore differ (see the
counterexample). -/
theorem spec_C4 (ctx : Ctx) (lang : String) (hlang : lang ≠ "french") (i fuel : Nat) :
    is_c_element ctx lang fuel i = some false ∧
    is_prefield_clitic ctx lang i = false ∧
    tag_form ctx lang i = "" ∧
    (mkFlags ctx lang i).interj = (mkFlags ctx "french" i).interj ∧
    (mkFlags ctx lang i).conj = (mkFlags ctx "french" i).conj ∧
    (mkFlags ctx lang i).dephead = (mkFlags ctx "french" i).dephead ∧
    (mkFlags ctx lang i).paren = (mkFlags ctx "french" i).paren ∧
    (mkFlags ctx lang i).voc = (mkFlags ctx "french" i).voc := by
  refine ⟨?_, ?_, ?_, rfl, rfl, rfl, rfl, rfl⟩
  · rw [is_c_element, if_neg hlang]
  · rw [is_prefield_clitic, if_neg hlang]
  · rw [tag_form, if_neg hlang]

/-- **C4 counterexample**: on a clause whose prefield is the single French
object clitic "le", the countable-head selection differs between the
unrecognized language "german" (the clitic counts as a head) and the
recognized language "french" (it does not), so the selection is not
"computed exactly as it would be for a recognized language". -/
theorem spec_C4_cx :
    (script leClause "german" store0).toOption.bind
      (fun s => s "prefield_countable_heads") = some (TagVal.str "le") ∧
    (script leClause "french" store0).toOption.bind
      (fun s => s "prefield_countable_heads") = some (TagVal.str "") := by
  constructor <;> rfl

theorem spec_C4_witness :
    is_c_element ctxHier "german" 4 0 = some false ∧
    is_prefield_clitic ctxHier "german" 0 = false ∧
    tag_form ctxHier "german" 0 = "" := by
  obtain ⟨h1, h2, h3, -, -, -, -, -⟩ := spec_C4 ctxHier "german" (by decide) 0 4
  exact ⟨h1, h2, h3⟩

/-- **C5** (code bug): the nominative-pronoun branch of `_tag_form_fr` uses
the pattern `v[ou]u?][sz]` whose unmatched `]` is a literal, so the
nominative form "vous" of the je/tu/il(s)/elle(s)/nous/vous family fails it
and falls through to the generic pronoun rule, yielding `NP:PRON` instead of
the claimed `NP:PRON:Prs:Nom`; the parallel form "nous" (pattern
`n[ou]u?[sz]`, no stray bracket) gets the claimed tag. -/
theorem spec_C5 :
    tag_form_fr vousCtx 0 = "NP:PRON" ∧
    tag_form_fr nousCtx 0 = "NP:PRON:Prs:Nom" ∧
    reFull reNomPron (lowerStr "vous") = false ∧
    reFull reNomPron (lowerStr "nous") = true := by
  refine ⟨rfl, rfl, rfl, rfl⟩

/-- **C6** (amended): punctuation is never a dephead except through the
copular special case, which is tested first: a token that equals the head
while the anchor is a distinct token with relation "cop" is a dephead
regardless of its part of speech. -/
theorem spec_C6 (ctx : Ctx) (i : Nat) (hp : (ctx.tok i).upos = "PUNCT")
    (hnc : ¬ (i = ctx.headIx ∧ ctx.tIx ≠ ctx.headIx ∧ (ctx.tok ctx.tIx).deprel = "cop")) :
    is_dephead ctx i = false := by
  rw [is_dephead, if_neg hnc, if_neg (by simp [hp])]

/-- **C6 counterexample**: in a copular clause whose structural head (the
anchor's parent) is a punctuation token, `is_dephead` returns true for that
punctuation token — including on the context actually produced by the
locator. -/
theorem spec_C6_cx :
    (punctCopCtx.tok 0).upos = "PUNCT" ∧
    (scriptCtx punctCopClause).toOption.map (fun ctx => is_dephead ctx 0) = some true ∧
    is_dephead punctCopCtx 0 = true := by
  refine ⟨rfl, rfl, rfl⟩

theorem spec_C6_witness : is_dephead ctxHier 1 = false :=
  spec_C6 ctxHier 1 (by decide) (by decide)

/-- **C7**: the phrase-tagging pre-pass consults only the first direct child
that is an adposition attached via the case relation: with no such child the
base tag is returned unwrapped; with one, the result is independent of the
remaining children and renders as `PP:<lemma>[base]` for the first matching
canonical lemma of `ADPS_FR`, or as `PP[base]` when no pattern matches. -/
theorem spec_C7 (ctx : Ctx) (i : Nat) :
    ((∀ j ∈ childIdxs ctx.c i, (ctx.tok j).upos ≠ "ADP" ∨ (ctx.tok j).deprel ≠ "case") →
      tag_form_fr ctx i = baseTagFr ctx i) ∧
    (∀ pre j rest, childIdxs ctx.c i = pre ++ j :: rest →
      (∀ j2 ∈ pre, (ctx.tok j2).upos ≠ "ADP" ∨ (ctx.tok j2).deprel ≠ "case") →
      (ctx.tok j).upos = "ADP" → (ctx.tok j).deprel = "case" →
      tag_p_form_fr ctx (childIdxs ctx.c i) = adpLookup ADPS_FR (lowerStr (ctx.tok j).form) ∧
      ((∀ pr ∈ ADPS_FR, reFull pr.2 (lowerStr (ctx.tok j).form) = false) →
        tag_form_fr ctx i = "PP[" ++ baseTagFr ctx i ++ "]") ∧
      (∀ pre2 t r rest2, ADPS_FR = pre2 ++ (t, r) :: rest2 →
        (∀ pr ∈ pre2, reFull pr.2 (lowerStr (ctx.tok j).form) = false) →
        reFull r (lowerStr (ctx.tok j).form) = true →
        tag_form_fr ctx i = "PP:" ++ t ++ "[" ++ baseTagFr ctx i ++ "]")) := by
  constructor
  · intro h
    rw [tag_form_fr, tag_p_form_fr_no_adp ctx _ h, wrapP_empty]
  · intro pre j rest hjs hpre hu hd
    have hP : tag_p_form_fr ctx (childIdxs ctx.c i) =
        adpLookup ADPS_FR (lowerStr (ctx.tok j).form) := by
      rw [hjs]
      exact tag_p_form_fr_first ctx pre j rest hpre hu hd
    refine ⟨hP, ?_, ?_⟩
    · intro hnone
      rw [tag_form_fr, hP, adpLookup_no_match _ _ hnone, wrapP_plain]
    · intro pre2 t r rest2 htbl hpre2 hr
      have hlookup : adpLookup ADPS_FR (lowerStr (ctx.tok j).form) = t := by
        rw [htbl]
        exact adpLookup_first _ pre2 t r rest2 hpre2 hr
      have hmem : (t, r) ∈ ADPS_FR := by rw [htbl]; simp
      obtain ⟨ht1, ht2⟩ := ADPS_FR_tags_ne t r hmem
      rw [tag_form_fr, hP, hlookup, wrapP_tagged t _ ht1 ht2]

theorem spec_C7_witness :
    tag_p_form_fr deCtx (childIdxs deCtx.c 1) = adpLookup ADPS_FR (lowerStr (deCtx.tok 0).form) ∧
    tag_form_fr deCtx 1 = "PP:de[" ++ baseTagFr deCtx 1 ++ "]" ∧
    baseTagFr deCtx 1 = "NP" := by
  obtain ⟨hP, -, h3⟩ := (spec_C7 deCtx 1).2 [] 0 [] (by decide) (by simp) (by decide) (by decide)
  refine ⟨hP, ?_, by decide⟩
  exact h3 [("à", reAdpA)] "de" reAdpDe [("en", reAdpEn), ("par", reAdpPar), ("pour", reAdpPour)]
    (by decide) (by decide) (by decide)

/-- **C8** (amended): a clause record with no keyword anchor always fails
with a structural error before any tag is written, and a cyclic parent chain
that complementizer detection actually traverses (here reached from prefield
token 1 of `cycClause` under the recognized language) likewise fails the
whole call with a structural error; a contract violation the analysis never
traverses is not detected (see the counterexample). -/
theorem spec_C8 :
    (∀ (c : Clause) (lang : String) (s : TagStore), c.kws = [] →
      script c lang s = .error "structural error: hit has no keyword token") ∧
    (script cycClause "french" store0 =
      .error "structural error: maximum recursion depth exceeded in complementizer detection") := by
  constructor
  · intro c lang s h
    have hC : scriptCtx c = .error "structural error: hit has no keyword token" := by
      show (match c.kws with
        | [] => Except.error "structural error: hit has no keyword token"
        | tIx :: _ =>
          let tTok := c.tokAt tIx
          if strStarts tTok.deprel "aux" || tTok.deprel = "cop" then
            match c.parent tIx with
            | none => Except.error "structural error: anchor has no parent"
            | some hh => Except.ok (Ctx.mk c tIx hh (get_w1 c hh))
          else Except.ok (Ctx.mk c tIx tIx (get_w1 c tIx))) = _
      rw [h]
    have hW : scriptWrites c lang = .error "structural error: hit has no keyword token" := by
      show (match scriptCtx c with
        | .error e => Except.error e
        | .ok ctx =>
          if cStatusOk ctx lang then Except.ok (writesOf ctx lang)
          else Except.error
            "structural error: maximum recursion depth exceeded in complementizer detection") = _
      rw [hC]
    show (match scriptWrites c lang with
      | .error e => Except.error e
      | .ok ws => Except.ok (applyWrites ws s)) = _
    rw [hW]
  · rfl

/-- **C8 counterexample**: `loopClause` has cyclic parentage (token 1 is its
own parent) yet the analysis completes normally, because the cycle is never
traversed — so it is not the case that every tree violating the Navigator
contract makes the call fail. -/
theorem spec_C8_cx : isOkE (script loopClause "french" store0) = true ∧ ¬ Acyclic loopClause :=
  ⟨rfl, by decide⟩

theorem spec_C8_witness :
    script noKwClause "french" store0 = .error "structural error: hit has no keyword token" :=
  spec_C8.1 noKwClause "french" store0 rfl

/-- The twelve tag-store keys an analysis call writes. -/
def tagKeys : List String :=
  [rankKey 1, rankKey 2, rankKey 3, rankKey 4,
   "prefield_clitics", "prefield_conjunctions", "prefield_cs", "prefield_countable_heads",
   "T", "head", "w1", "prefield"]

theorem writesOf_keys_sub (ctx : Ctx) (lang : String) :
    ∀ key ∈ (writesOf ctx lang).map Prod.fst, key ∈ tagKeys := by
  intro key hk
  unfold writesOf at hk
  rw [List.map_append, List.map_append] at hk
  rcases List.mem_append.mp hk with hk1 | hk2
  · rcases List.mem_append.mp hk1 with hka | hkb
    · have hmem : key ∈ [rankKey 1, rankKey 2, rankKey 3, rankKey 4] := by
        simpa [initRankWrites_eq] using hka
      fin_cases hmem <;> decide
    · obtain ⟨m, hm1, hm4, rfl⟩ := fillLoop_keys ctx lang _ 0 key hkb
      interval_cases m <;> decide
  · rw [diagWrites_keys] at hk2
    fin_cases hk2 <;> decide

theorem writesOf_keys_super (ctx : Ctx) (lang : String) :
    ∀ key ∈ tagKeys, key ∈ (writesOf ctx lang).map Prod.fst := by
  intro key hk
  unfold writesOf
  rw [List.map_append, List.map_append]
  fin_cases hk <;>
    first
      | exact List.mem_append_left _ (List.mem_append_left _ (by decide))
      | exact List.mem_append_right _ (by rw [diagWrites_keys]; decide)

/-- **C9**: a completing analysis call writes exactly the keys of `tagKeys`
(the four rank keys plus the eight diagnostics): its first four writes
initialize the rank keys to the empty string, every written key is one of
the twelve, all twelve are written (so the four rank keys are always present
afterwards), and the store is unchanged at every other key. -/
theorem spec_C9 (c : Clause) (lang : String) (ws : List (String × TagVal))
    (hws : scriptWrites c lang = .ok ws) :
    ws.take 4 = initRankWrites ∧
    (∀ key ∈ ws.map Prod.fst, key ∈ tagKeys) ∧
    (∀ key ∈ tagKeys, key ∈ ws.map Prod.fst) ∧
    (∀ (s : TagStore) (key : String), key ∉ tagKeys → applyWrites ws s key = s key) ∧
    (∀ s : TagStore, ∀ key ∈ tagKeys, (applyWrites ws s key).isSome) ∧
    (∀ s : TagStore, script c lang s = .ok (applyWrites ws s)) := by
  have hscript : ∀ s : TagStore, script c lang s = .ok (applyWrites ws s) := by
    intro s
    show (match scriptWrites c lang with
      | .error e => Except.error e
      | .ok ws2 => Except.ok (applyWrites ws2 s)) = _
    rw [hws]
  obtain ⟨ctx, hctx⟩ : ∃ ctx, ws = writesOf ctx lang := by
    revert hws
    show (match scriptCtx c with
      | .error e => Except.error e
      | .ok ctx =>
        if cStatusOk ctx lang then Except.ok (writesOf ctx lang)
        else Except.error
          "structural error: maximum recursion depth exceeded in complementizer detection") =
      .ok ws → _
    rcases scriptCtx c with e | ctx
    · intro h
      exact absurd h (by simp)
    · intro h
      have h2 : (if cStatusOk ctx lang = true then Except.ok (writesOf ctx lang)
          else (Except.error
            "structural error: maximum recursion depth exceeded in complementizer detection" :
            Except String (List (String × TagVal)))) = Except.ok ws := h
      by_cases hok : cStatusOk ctx lang = true
      · rw [if_pos hok] at h2
        exact ⟨ctx, (Except.ok.inj h2).symm⟩
      · rw [if_neg hok] at h2
        exact absurd h2 (by simp)
  subst hctx
  refine ⟨?_, writesOf_keys_sub ctx lang, writesOf_keys_super ctx lang, ?_, ?_, hscript⟩
  · unfold writesOf
    rw [List.append_assoc]
    exact List.take_left' rfl
  · intro s key hk
    exact applyWrites_not_mem _ _ _ (fun hmem => hk (writesOf_keys_sub ctx lang key hmem))
  · intro s key hk
    exact applyWrites_mem_isSome _ _ _ (writesOf_keys_super ctx lang key hk)

def wsHier : List (String × TagVal) := (scriptWrites hierClause "french").toOption.getD []

theorem spec_C9_witness :
    wsHier.take 4 = initRankWrites ∧
    applyWrites wsHier store0 "some_other_key" = store0 "some_other_key" ∧
    (applyWrites wsHier store0 "T").isSome := by
  obtain ⟨h1, -, -, h4, h5, -⟩ := spec_C9 hierClause "french" wsHier rfl
  exact ⟨h1, h4 store0 "some_other_key" (by decide), h5 store0 "T" (by decide)⟩

/-- **C10**: both recursive predicates terminate.  The clitic-chain recursion
moves strictly rightwards, so any fuel beyond the anchor position computes
the (total) `could_be_prefield_clitic`; under acyclic parentage the
complementizer-inheritance recursion of `is_c_element_fr` returns a value
(never the fuel-exhaustion marker) at the fuel the analysis uses, and its
result is stable under any larger fuel. -/
theorem spec_C10 (ctx : Ctx) (i : Nat) :
    (∀ fuel : Nat, ctx.tIx < fuel →
      couldBeCliticF ctx fuel i = some (could_be_prefield_clitic ctx i)) ∧
    (Acyclic ctx.c → i < ctx.c.toks.length →
      ∀ fuel : Nat, ctx.c.toks.length ≤ fuel →
        (is_c_element_fr ctx fuel i).isSome ∧
        is_c_element_fr ctx fuel i = is_c_element_fr ctx ctx.c.toks.length i) := by
  constructor
  · intro fuel h
    exact couldBeCliticF_eq ctx fuel i (by omega)
  · intro hA hi fuel hf
    have hnone := hA i hi
    have hstab := is_c_element_fr_stable ctx ctx.c.toks.length i hnone (fuel - ctx.c.toks.length)
    rw [show ctx.c.toks.length + (fuel - ctx.c.toks.length) = fuel from by omega] at hstab
    constructor
    · rw [hstab]
      exact is_c_element_fr_isSome ctx _ i hnone
    · exact hstab

theorem spec_C10_witness :
    couldBeCliticF ctxHier 5 0 = some (could_be_prefield_clitic ctxHier 0) ∧
    (is_c_element_fr ctxHier 4 0).isSome = true ∧
    is_c_element_fr ctxHier 4 0 = is_c_element_fr ctxHier ctxHier.c.toks.length 0 := by
  have h2 := (spec_C10 ctxHier 0).2 (by decide) (by decide) 4 (by decide)
  exact ⟨(spec_C10 ctxHier 0).1 5 (by decide), h2.1, h2.2⟩
